import Mathlib

/-!
Shallow embedding of the lifter-progression dashboard core: the field
coercion and record normalization pipeline of src/utils/data.js (exported
through src/main.jsx) and the query layer (name/equipment filtering, date
sort, trace assembly) of src/App.jsx.

Modelling conventions: JS strings are lists of characters restricted to the
code points the claims exercise (character classes such as the whitespace
class are modelled on their ASCII members); JS numbers are idealized as
exact rationals, except that string-to-number conversion overflows to the
infinity values at the IEEE binary64 boundary, which the source can reach;
NaN is an explicit constructor.  undefined/null cell values are `none`.
-/

set_option allowUnsafeReducibility true
attribute [local semireducible] Rat.mul Rat.add Rat.inv Rat.sub Rat.neg Rat.ofScientific
set_option maxRecDepth 10000

namespace Powerlifting

/-- Strings, modelled as lists of characters. -/
abbrev Str := List Char

/-- Characters matched by the whitespace class of the JS regexes and by
String.prototype.trim, restricted to ASCII: space, tab, LF, VT, FF, CR. -/
def isJsWs (c : Char) : Bool :=
  c.toNat = 32 || c.toNat = 9 || c.toNat = 10 || c.toNat = 11 ||
    c.toNat = 12 || c.toNat = 13

/-- Lower-case ASCII letter or ASCII digit: the alphanumeric part of the
character class kept by normalizeName's first replace. -/
def isLowerAlnum (c : Char) : Bool :=
  (97 ≤ c.toNat && c.toNat ≤ 122) || (48 ≤ c.toNat && c.toNat ≤ 57)

/-- The character class kept by the replace removing punctuation in
normalizeName (the complement of the removed class). -/
def isKeepName (c : Char) : Bool := isLowerAlnum c || isJsWs c

/-- String.prototype.trim: drop leading and trailing whitespace. -/
def trimWs (s : Str) : Str :=
  ((s.dropWhile isJsWs).reverse.dropWhile isJsWs).reverse

/-- String.prototype.toLowerCase on the modelled alphabet. -/
def toLowerStr (s : Str) : Str := s.map Char.toLower

/-- The first replace of normalizeName: remove every character outside
the kept class. -/
def stripName (s : Str) : Str := s.filter isKeepName

/-- The second replace of normalizeName: each maximal run of whitespace
becomes a single space. -/
def collapseWs : Str → Str
  | [] => []
  | [c] => if isJsWs c then [' '] else [c]
  | c :: d :: rest =>
    if isJsWs c then
      if isJsWs d then collapseWs (d :: rest)
      else ' ' :: collapseWs (d :: rest)
    else c :: collapseWs (d :: rest)

/-- normalizeName from src/utils/data.js: empty-string guard, then
trim, lowercase, strip punctuation, collapse whitespace runs, in that
order (note there is no final trim). -/
def normalizeName (s : Str) : Str :=
  if s.isEmpty then [] else collapseWs (stripName (toLowerStr (trimWs s)))

/-- Characters kept by toNumber's replace: digits, the dot, the minus
sign (at any position). -/
def isNumKeep (c : Char) : Bool := c.isDigit || c.toNat = 46 || c.toNat = 45

/-- The replace inside toNumber. -/
def stripNum (s : Str) : Str := s.filter isNumKeep

/-- Value of a digit string read in base 10. -/
def digitsToNat (ds : Str) : Nat := ds.foldl (fun a c => 10 * a + (c.toNat - 48)) 0

/-- Unsigned part of the ECMAScript string numeric grammar restricted to
the post-strip alphabet (digits, dot, minus): digits with an optional
dot-separated fraction, at least one digit overall; exponents, Infinity,
hex forms and whitespace cannot survive the strip.  `none` means NaN. -/
def parseUnsigned (s : Str) : Option ℚ :=
  let ip := s.takeWhile Char.isDigit
  let rest := s.dropWhile Char.isDigit
  match rest with
  | [] => if ip.isEmpty then none else some (digitsToNat ip)
  | c :: frac =>
    if c.toNat = 46 && frac.all Char.isDigit && (!ip.isEmpty || !frac.isEmpty) then
      some ((digitsToNat ip : ℚ) + (digitsToNat frac : ℚ) / (10 : ℚ) ^ frac.length)
    else none

/-- Signed ECMAScript numeral over the post-strip alphabet: an optional
single leading minus sign, then an unsigned numeral. -/
def parseSigned (s : Str) : Option ℚ :=
  match s with
  | [] => none
  | c :: rest => if c.toNat = 45 then (parseUnsigned rest).map (fun q => -q) else parseUnsigned s

/-- JS number results relevant to the model: an (idealized exact) finite
value, the two infinities, or NaN. -/
inductive JsNum where
  | num (q : ℚ)
  | posInf
  | negInf
  | nan
deriving DecidableEq

/-- Smallest magnitude at which ECMAScript string-to-number conversion
rounds to an infinity: the midpoint between the largest binary64 value
and 2 ^ 1024, that is 2 ^ 1024 - 2 ^ 970, written as an explicit integer
literal so that it evaluates. -/
def OVERFLOW : ℚ := 179769313486231580793728971405303415079934132710037826936173778980444968292764750946649017977587207096330286416692887910946555547851940402630657488671505820681908902000708383676273854845817711531764475730270069855571366959622842914819860834936475292719074168444365510704342711559699508093042880177904174497792

/-- Number(s) for an already-stripped string: the empty string converts
to 0, an invalid numeral to NaN, and magnitudes at or beyond the binary64
boundary to the infinities; finite values are kept exact. -/
def jsNumOfStripped (s : Str) : JsNum :=
  if s.isEmpty then JsNum.num 0
  else
    match parseSigned s with
    | none => JsNum.nan
    | some q =>
      if OVERFLOW ≤ q then JsNum.posInf
      else if q ≤ -OVERFLOW then JsNum.negInf
      else JsNum.num q

/-- toNumber from src/utils/data.js: null/undefined guard, strip the
characters outside digits/dot/minus, convert with Number, and map NaN
to null through the isNaN check. -/
def toNumber (v : Option Str) : Option JsNum :=
  match v with
  | none => none
  | some s =>
    match jsNumOfStripped (stripNum s) with
    | JsNum.nan => none
    | n => some n

/-- Floor division on integers, as used by the civil-calendar day-count
conversion underlying ECMAScript Date. -/
def fdivI (a b : Int) : Int := Int.fdiv a b

/-- Day number of a proleptic-Gregorian calendar date, with day 0 at
1970-01-01 (the Unix epoch); day overflow within a month carries into the
following month, matching ECMAScript MakeDay. -/
def daysFromCivil (y m d : Int) : Int :=
  let y1 := if m ≤ 2 then y - 1 else y
  let era := fdivI y1 400
  let yoe := y1 - era * 400
  let mp := if m ≤ 2 then m + 9 else m - 3
  let doy := fdivI (153 * mp + 2) 5 + d - 1
  let doe := yoe * 365 + fdivI yoe 4 - fdivI yoe 100 + doy
  era * 146097 + doe - 719468

/-- Inverse of daysFromCivil: the calendar date of a day number. -/
def civilFromDays (z0 : Int) : Int × Int × Int :=
  let z := z0 + 719468
  let era := fdivI z 146097
  let doe := z - era * 146097
  let yoe := fdivI (doe - fdivI doe 1460 + fdivI doe 36524 - fdivI doe 146096) 365
  let y := yoe + era * 400
  let doy := doe - (365 * yoe + fdivI yoe 4 - fdivI yoe 100)
  let mp := fdivI (5 * doy + 2) 153
  let d := doy - fdivI (153 * mp + 2) 5 + 1
  let m := if mp < 10 then mp + 3 else mp - 9
  (if m ≤ 2 then y + 1 else y, m, d)

/-- Parse of the date-only ECMAScript Date Time String Format
YYYY-MM-DD (four digits, dash, two digits, dash, two digits, months
01-12 and days 01-31 per the grammar).  The model treats every other
input as unparsable; full date-time forms and the non-ISO fallbacks of
new Date are implementation-defined and are not exercised by the
ingestion pipeline's round-trip. -/
def parseIsoDate (s : Str) : Option (Int × Int × Int) :=
  match s with
  | [y1, y2, y3, y4, h1, m1, m2, h2, d1, d2] =>
    if y1.isDigit && y2.isDigit && y3.isDigit && y4.isDigit &&
        h1.toNat = 45 && m1.isDigit && m2.isDigit && h2.toNat = 45 &&
        d1.isDigit && d2.isDigit then
      let y : Int := digitsToNat [y1, y2, y3, y4]
      let m : Int := digitsToNat [m1, m2]
      let d : Int := digitsToNat [d1, d2]
      if 1 ≤ m && m ≤ 12 && 1 ≤ d && d ≤ 31 then some (y, m, d) else none
    else none
  | _ => none

/-- One decimal digit as a character. -/
def digitChar (n : Nat) : Char := Char.ofNat (48 + n % 10)

/-- Two-digit zero-padded decimal rendering. -/
def pad2 (n : Nat) : Str := [digitChar (n / 10), digitChar n]

/-- Four-digit zero-padded decimal rendering. -/
def pad4 (n : Nat) : Str := [digitChar (n / 1000), digitChar (n / 100), digitChar (n / 10), digitChar n]

/-- toISOString().slice(0,10) of a civil date: YYYY-MM-DD. -/
def formatIsoDate : Int × Int × Int → Str
  | (y, m, d) => pad4 y.toNat ++ '-' :: pad2 m.toNat ++ '-' :: pad2 d.toNat

/-- parseDate from src/utils/data.js: falsy guard, new Date(d), NaN
check, then toISOString().slice(0,10).  The round trip through the day
number normalizes overflowing days (e.g. 2020-02-30 becomes 2020-03-01),
as ECMAScript MakeDay does. -/
def parseDate (v : Option Str) : Option Str :=
  match v with
  | none => none
  | some s =>
    if s.isEmpty then none
    else
      match parseIsoDate s with
      | none => none
      | some (y, m, d) => some (formatIsoDate (civilFromDays (daysFromCivil y m d)))

/-- Milliseconds since the epoch of a stored meet-date string, as
new Date(s).getTime() computes for the date-only ISO form (parsed as
UTC midnight).  Ingestion only ever stores such strings; other strings
(NaN in JS) are mapped to 0 and are unreachable through the pipeline. -/
def jsDateMs (s : Str) : Int :=
  match parseIsoDate s with
  | some (y, m, d) => daysFromCivil y m d * 86400000
  | none => 0

/-- Conversion constant KG_TO_LB from src/utils/data.js. -/
def KG_TO_LB : ℚ := 220462 / 100000

/-- Number.prototype.toFixed(2) followed by unary plus, on the exact
value: the nearest multiple of 1/100, ties toward positive infinity
(toFixed picks the larger candidate), applied to the finite case; the
infinities and NaN round-trip through their string forms unchanged. -/
def jsToFixed2 : JsNum → JsNum
  | JsNum.num q => JsNum.num ((Int.floor (q * 100 + 1 / 2) : ℚ) / 100)
  | x => x

/-- JS multiplication by the positive finite constant KG_TO_LB; finite
values are idealized as exact. -/
def jsMulKgToLb : JsNum → JsNum
  | JsNum.num q => JsNum.num (q * KG_TO_LB)
  | x => x

/-- A raw CSV row as PapaParse delivers it with header:true — a map from
the column names the normalizer consults to cell strings; `none` is an
absent column (undefined). -/
structure RawRow where
  Name : Option Str := none
  name : Option Str := none
  lifter : Option Str := none
  MeetDate : Option Str := none
  meet_date : Option Str := none
  date : Option Str := none
  meetdate : Option Str := none
  Equipment : Option Str := none
  equipment : Option Str := none
  Gear : Option Str := none
  Federation : Option Str := none
  federation : Option Str := none
  Age : Option Str := none
  age : Option Str := none
  BodyweightKg : Option Str := none
  bodyweight : Option Str := none
  bodywt : Option Str := none
  weight : Option Str := none
  SquatKg : Option Str := none
  squat : Option Str := none
  best3sqkg : Option Str := none
  best3sq : Option Str := none
  BenchKg : Option Str := none
  bench : Option Str := none
  best3bnkg : Option Str := none
  best3bn : Option Str := none
  DeadliftKg : Option Str := none
  deadlift : Option Str := none
  best3dlkg : Option Str := none
  best3dl : Option Str := none
  TotalKg : Option Str := none
  total : Option Str := none
  totalkg : Option Str := none
deriving DecidableEq

/-- Truthiness of a cell value: undefined and the empty string are
falsy, every other string is truthy. -/
def truthy : Option Str → Bool
  | none => false
  | some s => !s.isEmpty

/-- The JS `a || b` on cell values: `a` when truthy, otherwise `b`. -/
def jsOr (a b : Option Str) : Option Str := if truthy a then a else b

/-- The JS `a || dflt` with a string default, as in `... || ''`. -/
def jsOrStr (a : Option Str) (dflt : Str) : Str :=
  match a with
  | some s => if s.isEmpty then dflt else s
  | none => dflt

/-- The JS `x || null` applied to parseDate's result. -/
def jsOrNull (a : Option Str) : Option Str := if truthy a then a else none

/-- The canonical LifterRecord of one row, with the field names the code
stores. -/
structure LifterRecord where
  Name : Str
  NameNormalized : Str
  MeetDate : Option Str
  Equipment : Str
  Federation : Str
  Age : Option JsNum
  BodyweightKg : Option JsNum
  SquatKg : Option JsNum
  BenchKg : Option JsNum
  DeadliftKg : Option JsNum
  TotalKg : Option JsNum
  SquatLb : Option JsNum
  BenchLb : Option JsNum
  DeadliftLb : Option JsNum
  TotalLb : Option JsNum
deriving DecidableEq

/-- The row-mapping function inside processCsvData, with the alias
chains exactly as the code writes them. -/
def normalizeRow (r : RawRow) : LifterRecord :=
  let nm := jsOrStr (jsOr (jsOr r.Name r.name) r.lifter) []
  let squatKg := toNumber (jsOr (jsOr (jsOr r.SquatKg r.squat) r.best3sqkg) r.best3sq)
  let benchKg := toNumber (jsOr (jsOr (jsOr r.BenchKg r.bench) r.best3bnkg) r.best3bn)
  let deadliftKg := toNumber (jsOr (jsOr (jsOr r.DeadliftKg r.deadlift) r.best3dlkg) r.best3dl)
  let totalKg := toNumber (jsOr (jsOr r.TotalKg r.total) r.totalkg)
  { Name := nm
    NameNormalized := normalizeName nm
    MeetDate := jsOrNull (parseDate (jsOr (jsOr (jsOr r.MeetDate r.meet_date) r.date) r.meetdate))
    Equipment := jsOrStr (jsOr (jsOr r.Equipment r.equipment) r.Gear) []
    Federation := jsOrStr (jsOr r.Federation r.federation) []
    Age := toNumber (jsOr r.Age r.age)
    BodyweightKg := toNumber (jsOr (jsOr (jsOr r.BodyweightKg r.bodyweight) r.bodywt) r.weight)
    SquatKg := squatKg
    BenchKg := benchKg
    DeadliftKg := deadliftKg
    TotalKg := totalKg
    SquatLb := match squatKg with
      | some n => some (jsToFixed2 (jsMulKgToLb n))
      | none => none
    BenchLb := match benchKg with
      | some n => some (jsToFixed2 (jsMulKgToLb n))
      | none => none
    DeadliftLb := match deadliftKg with
      | some n => some (jsToFixed2 (jsMulKgToLb n))
      | none => none
    TotalLb := match totalKg with
      | some n => some (jsToFixed2 (jsMulKgToLb n))
      | none => none }

/-- processCsvData from src/utils/data.js: map the row normalizer over
the raw rows. -/
def processCsvData (rows : List RawRow) : List LifterRecord :=
  rows.map normalizeRow

/-- The equipment filter selection of src/App.jsx. -/
inductive EquipFilter where
  | All
  | Raw
  | Equipped
deriving DecidableEq

/-- The unit selection of src/App.jsx. -/
inductive UnitSel where
  | kg
  | lb
deriving DecidableEq

/-- The four lifts, in the insertion order of the lifts state object. -/
inductive Lift where
  | Squat
  | Bench
  | Deadlift
  | Total
deriving DecidableEq

/-- The lifts checkbox state of src/App.jsx. -/
structure LiftsState where
  squat : Bool
  bench : Bool
  deadlift : Bool
  total : Bool
deriving DecidableEq

/-- Object.entries(lifts).filter(on).map(key): the active lifts in
insertion order. -/
def activeLifts (ls : LiftsState) : List Lift :=
  (if ls.squat then [Lift.Squat] else []) ++
    (if ls.bench then [Lift.Bench] else []) ++
      (if ls.deadlift then [Lift.Deadlift] else []) ++
        (if ls.total then [Lift.Total] else [])

/-- Whether pat occurs at the start of the second argument. -/
def beginsWith : Str → Str → Bool
  | [], _ => true
  | _ :: _, [] => false
  | p :: ps, c :: cs => p = c && beginsWith ps cs

/-- String.prototype.includes: substring occurrence. -/
def containsSub (pat : Str) : Str → Bool
  | [] => pat.isEmpty
  | c :: cs => beginsWith pat (c :: cs) || containsSub pat cs

/-- The substring searched for by the equipment filter. -/
def rawPat : Str := ['r', 'a', 'w']

/-- `(r.Equipment || '').toLowerCase().includes('raw')` from the filter
in src/App.jsx (the record's Equipment is already a string, so the ||
guard is the identity). -/
def containsRaw (e : Str) : Bool := containsSub rawPat (toLowerStr e)

/-- The sort key of `new Date(x)` inside the comparator: milliseconds
since the epoch, with null becoming the epoch itself (new Date(null) is
1970-01-01T00:00:00Z). -/
def dateKeyOpt : Option Str → Int
  | none => 0
  | some s => jsDateMs s

/-- The comparator key of a record in the date sort. -/
def dateKey (r : LifterRecord) : Int := dateKeyOpt r.MeetDate

/-- Insert a record into an already sorted list, after every record with
a key less than or equal to its own (the stable ascending placement). -/
def insertRec (x : LifterRecord) : List LifterRecord → List LifterRecord
  | [] => [x]
  | y :: ys => if dateKey y ≤ dateKey x then y :: insertRec x ys else x :: y :: ys

/-- The ascending stable sort by meet date performed by
`arr.sort((a,b) => new Date(a.MeetDate) - new Date(b.MeetDate))`
(Array.prototype.sort is stable and this comparator is a total
preorder, so the result is the unique stable ascending order). -/
def sortByDate (l : List LifterRecord) : List LifterRecord :=
  l.foldl (fun acc r => insertRec r acc) []

/-- The name and equipment filtering steps of the `filtered` memo in
src/App.jsx, before the sort. -/
def nameEquipFiltered (rows : List LifterRecord) (sel : Str) (eq : EquipFilter) :
    List LifterRecord :=
  let arr := rows.filter (fun r => decide (r.Name = sel))
  match eq with
  | EquipFilter.All => arr
  | EquipFilter.Raw => arr.filter (fun r => containsRaw r.Equipment)
  | EquipFilter.Equipped => arr.filter (fun r => !containsRaw r.Equipment)

/-- The `filtered` memo of src/App.jsx: empty-selection guard, name
filter, equipment filter, sort by meet date. -/
def filteredRecs (rows : List LifterRecord) (sel : Str) (eq : EquipFilter) :
    List LifterRecord :=
  if sel.isEmpty then [] else sortByDate (nameEquipFiltered rows sel eq)

/-- One plotted series of the `traces` memo: the parallel date and value
sequences plus the lift it renders. -/
structure Trace where
  x : List (Option Str)
  y : List (Option JsNum)
  name : Lift
deriving DecidableEq

/-- The dynamic field access `r[lift + unitSuffix]`. -/
def liftValue (u : UnitSel) (l : Lift) (r : LifterRecord) : Option JsNum :=
  match u, l with
  | UnitSel.kg, Lift.Squat => r.SquatKg
  | UnitSel.kg, Lift.Bench => r.BenchKg
  | UnitSel.kg, Lift.Deadlift => r.DeadliftKg
  | UnitSel.kg, Lift.Total => r.TotalKg
  | UnitSel.lb, Lift.Squat => r.SquatLb
  | UnitSel.lb, Lift.Bench => r.BenchLb
  | UnitSel.lb, Lift.Deadlift => r.DeadliftLb
  | UnitSel.lb, Lift.Total => r.TotalLb

/-- The `traces` memo of src/App.jsx: one trace per active lift over the
filtered records. -/
def qtraces (filtered : List LifterRecord) (ls : LiftsState) (u : UnitSel) :
    List Trace :=
  (activeLifts ls).map (fun l =>
    { x := filtered.map (fun r => r.MeetDate)
      y := filtered.map (liftValue u l)
      name := l })

example : toNumber (some [' ']) = some (JsNum.num 0) := by decide
example : toNumber (some ['-']) = none := by decide
example : toNumber (some ['1', '.', '5']) = some (JsNum.num (3 / 2)) := by decide
example : toNumber (some ['b', 'a', 'd']) = some (JsNum.num 0) := by decide
example : toNumber (some ['-', '.', '5']) = some (JsNum.num (-(1 / 2))) := by decide
example : toNumber (some ['1', '.', '2', '.', '3']) = none := by decide
example : normalizeName (['a', ' ', '!']) = ['a', ' '] := by decide
example : daysFromCivil 1970 1 1 = 0 := by decide
example : daysFromCivil 1969 12 31 = -1 := by decide
example : daysFromCivil 2020 1 5 = 18266 := by decide
example : civilFromDays 18266 = (2020, 1, 5) := by decide
example : parseDate (some ['2', '0', '2', '0', '-', '0', '1', '-', '0', '5']) =
    some ['2', '0', '2', '0', '-', '0', '1', '-', '0', '5'] := by decide
example : parseDate (some ['2', '0', '2', '0', '-', '0', '2', '-', '3', '0']) =
    some ['2', '0', '2', '0', '-', '0', '3', '-', '0', '1'] := by decide
example : parseDate (some ['j', 'u', 'n', 'k']) = none := by decide
example : parseDate (some []) = none := by decide
example : jsDateMs (['1', '9', '6', '9', '-', '0', '6', '-', '0', '1']) < 0 := by decide

/-! Spec-side definitions, written from the specification's words, to be
compared with the code-side definitions above. -/

/-- Whether a JS number value is finite. -/
def jsIsFinite : JsNum → Bool
  | JsNum.num _ => true
  | _ => false

/-- The spec-side pound derivation: multiply the kilogram value by
2.20462 and round to 2 decimal places (JS rounding: nearest multiple of
1/100, ties toward positive infinity); the non-finite values pass
through as JS arithmetic maps them. -/
def specLbOfKg : JsNum → JsNum
  | JsNum.num k => JsNum.num ((Int.floor (k * (220462 / 100000) * 100 + 1 / 2) : ℚ) / 100)
  | x => x

/-- Alias resolution for string-valued fields as the code behaves: the
first alias whose value is truthy (present and non-empty) wins, and the
default applies when no alias is truthy. -/
def firstTruthyStr : List (Option Str) → Str → Str
  | [], dflt => dflt
  | x :: xs, dflt =>
    match x with
    | some s => if s.isEmpty then firstTruthyStr xs dflt else s
    | none => firstTruthyStr xs dflt

/-- Alias resolution for coerced fields as the code behaves: the first
truthy alias wins, and when no alias is truthy the last alias's value is
passed through to the coercion unchanged. -/
def firstTruthyElse : List (Option Str) → Option Str
  | [] => none
  | [x] => x
  | x :: xs => if truthy x then x else firstTruthyElse xs

/-! Concrete fixtures used by witnesses and counterexamples. -/

/-- The cell value of the no-digit scenario. -/
def badStr : Str := ['b', 'a', 'd']

/-- The scenario row with an empty Name and an unparsable SquatKg. -/
def badRow : RawRow := { Name := some [], SquatKg := some badStr }

/-- 309 nines: a digit string beyond the binary64 range. -/
def nines : Str := List.replicate 309 ('9')

/-- An ISO meet date. -/
def janeDateStr : Str := ['2', '0', '2', '0', '-', '0', '1', '-', '0', '5']

/-- A well-formed row. -/
def janeRow : RawRow :=
  { Name := some ['J', 'a', 'n', 'e']
    SquatKg := some ['1', '0', '0']
    MeetDate := some janeDateStr }

/-- A lifter name used by the query fixtures. -/
def bobStr : Str := ['b', 'o', 'b']

/-- A row whose first Name alias is present but empty while a later
alias carries a value. -/
def rowEmptyName : RawRow := { Name := some [], name := some bobStr }

/-- A name matching no record. -/
def missingName : Str := ['z', 'o', 'e']

/-- Lifts state with only Squat active. -/
def squatOnly : LiftsState := ⟨true, false, false, false⟩

/-- Lifts state with nothing active. -/
def noLifts : LiftsState := ⟨false, false, false, false⟩

/-! Shared lemmas about the number coercion. -/

lemma toNumber_some_eq_none_iff (s : Str) :
    toNumber (some s) = none ↔ jsNumOfStripped (stripNum s) = JsNum.nan := by
  cases h : jsNumOfStripped (stripNum s) <;> simp [toNumber, h]

lemma jsNumOfStripped_eq_nan_iff (t : Str) :
    jsNumOfStripped t = JsNum.nan ↔ t ≠ [] ∧ parseSigned t = none := by
  by_cases he : t.isEmpty
  · simp [jsNumOfStripped, he, List.isEmpty_iff.mp he]
  · have hne : t ≠ [] := by simpa [List.isEmpty_iff] using he
    cases hp : parseSigned t with
    | none => simp [jsNumOfStripped, he, hp, hne]
    | some q =>
      simp only [jsNumOfStripped, he, hp, Bool.false_eq_true, if_false]
      constructor
      · intro h
        split at h <;> first | exact absurd h (by simp) | skip
        split at h <;> exact absurd h (by simp)
      · rintro ⟨-, h⟩
        exact absurd h (by simp)

/-! ### C5 -/

/-- C5: ingestion is a pure, order-preserving transform — n raw rows
yield exactly n canonical records, the i-th output is the normalization
of the i-th input (so nothing is deduplicated, reordered, or dropped,
and a malformed row degrades to a record rather than aborting), and
empty input yields empty output. -/
theorem c5_ingestion_order_preserving (rows : List RawRow) :
    (processCsvData rows).length = rows.length ∧
      (∀ i : Nat, (processCsvData rows)[i]? = rows[i]?.map normalizeRow) ∧
      processCsvData ([] : List RawRow) = [] :=
  ⟨List.length_map _ _, fun i => by simp [processCsvData, List.getElem?_map], rfl⟩

/-! ### C1 -/

/-- C1 counterexample: the row with SquatKg "bad" does not yield a null
squat entry — stripping "bad" leaves the empty string, Number('') is 0,
so the record carries squatKg = 0 and squatLb = 0 (the claim predicts
null for both). -/
theorem c1_counterexample :
    toNumber (some badStr) = some (JsNum.num 0) ∧
      (processCsvData [badRow]).map (fun r => (r.Name, r.SquatKg, r.SquatLb)) =
        [(([] : Str), some (JsNum.num 0), some (JsNum.num 0))] :=
  ⟨by decide, by decide⟩

/-- C1 amended: toNumber strips every character that is not a digit,
decimal point, or minus sign, then parses; it returns null exactly when
the input is undefined/null or the stripped result is non-empty but not
a valid numeral (e.g. a lone "-"); when the stripped result is empty
(e.g. "bad" or "") it returns 0, not null, so the row
{Name:"", SquatKg:"bad"} ingests to squatKg = 0 and squatLb = 0,
without throwing. -/
theorem c1_amended :
    (∀ v : Option Str, toNumber v = none ↔
      (v = none ∨ ∃ s, v = some s ∧ stripNum s ≠ [] ∧ parseSigned (stripNum s) = none)) ∧
      (∀ s : Str, stripNum s = [] → toNumber (some s) = some (JsNum.num 0)) ∧
      (processCsvData [badRow]).map (fun r => (r.Name, r.SquatKg, r.SquatLb)) =
        [(([] : Str), some (JsNum.num 0), some (JsNum.num 0))] := by
  refine ⟨fun v => ?_, fun s h => ?_, by decide⟩
  · cases v with
    | none => simp [toNumber]
    | some s =>
      rw [toNumber_some_eq_none_iff, jsNumOfStripped_eq_nan_iff]
      simp
  · simp [toNumber, jsNumOfStripped, h]

/-- Witness for the amended C1 at the scenario input. -/
theorem c1_witness :
    stripNum badStr = [] ∧ toNumber (some badStr) = some (JsNum.num 0) :=
  ⟨by decide, c1_amended.2.1 badStr (by decide)⟩

/-! ### C6 -/

/-- C6 counterexample: a 309-digit cell value converts to positive
Infinity — toNumber returns a non-finite number (the claim says the
result is always null or finite). -/
theorem c6_counterexample :
    toNumber (some nines) = some JsNum.posInf ∧ jsIsFinite JsNum.posInf = false :=
  ⟨by decide, rfl⟩

/-- C6 amended: toNumber never returns NaN (the isNaN guard maps it to
null), but the result is not always finite: it is an infinity exactly
when the stripped string parses to a magnitude at or beyond the binary64
overflow boundary. -/
theorem c6_amended :
    (∀ (v : Option Str) (n : JsNum), toNumber v = some n → n ≠ JsNum.nan) ∧
      ∀ s : Str,
        (toNumber (some s) = some JsNum.posInf ∨ toNumber (some s) = some JsNum.negInf) ↔
          ∃ q : ℚ, parseSigned (stripNum s) = some q ∧ OVERFLOW ≤ |q| := by
  constructor
  · rintro v n h rfl
    cases v with
    | none => simp [toNumber] at h
    | some s =>
      cases hn : jsNumOfStripped (stripNum s) <;> simp [toNumber, hn] at h
  · intro s
    by_cases he : (stripNum s).isEmpty
    · have : stripNum s = [] := List.isEmpty_iff.mp he
      simp [toNumber, jsNumOfStripped, he, this, parseSigned]
    · cases hp : parseSigned (stripNum s) with
      | none => simp [toNumber, jsNumOfStripped, he, hp]
      | some q =>
        simp only [toNumber, jsNumOfStripped, he, Bool.false_eq_true, if_false, hp,
          Option.some.injEq, exists_eq_left']
        rw [le_abs]
        by_cases h1 : OVERFLOW ≤ q
        · simp [h1]
        · by_cases h2 : q ≤ -OVERFLOW
          · have : OVERFLOW ≤ -q := by linarith
            simp [h1, h2, this]
          · have hn1 : ¬ OVERFLOW ≤ -q := by linarith
            simp [h1, h2, hn1]

/-- Witness for the amended C6 at the overflowing input. -/
theorem c6_witness :
    toNumber (some nines) = some JsNum.posInf ∧ JsNum.posInf ≠ JsNum.nan :=
  ⟨by decide, c6_amended.1 (some nines) JsNum.posInf (by decide)⟩

/-! ### C2 -/

lemma jsToFixed2_mul_eq_spec (n : JsNum) : jsToFixed2 (jsMulKgToLb n) = specLbOfKg n := by
  cases n <;> rfl

lemma lbField_eq (kg : Option JsNum) :
    (match kg with
      | some n => some (jsToFixed2 (jsMulKgToLb n))
      | none => none) = kg.map specLbOfKg ∧
      ((match kg with
        | some n => some (jsToFixed2 (jsMulKgToLb n))
        | none => none) = none ↔ kg = none) := by
  cases kg <;> simp [jsToFixed2_mul_eq_spec]

/-- C2: in every ingested record, each pound field is the kilogram field
times 2.20462 rounded to 2 decimal places when the kilogram field is
non-null, and is null exactly when the kilogram field is null. -/
theorem c2_lb_derived_from_kg (rows : List RawRow) (r : LifterRecord)
    (hr : r ∈ processCsvData rows) :
    (r.SquatLb = r.SquatKg.map specLbOfKg ∧ (r.SquatLb = none ↔ r.SquatKg = none)) ∧
      (r.BenchLb = r.BenchKg.map specLbOfKg ∧ (r.BenchLb = none ↔ r.BenchKg = none)) ∧
      (r.DeadliftLb = r.DeadliftKg.map specLbOfKg ∧ (r.DeadliftLb = none ↔ r.DeadliftKg = none)) ∧
      (r.TotalLb = r.TotalKg.map specLbOfKg ∧ (r.TotalLb = none ↔ r.TotalKg = none)) := by
  obtain ⟨raw, -, rfl⟩ := List.mem_map.mp hr
  exact ⟨lbField_eq _, lbField_eq _, lbField_eq _, lbField_eq _⟩

/-- Witness for C2 at a concrete ingested record. -/
theorem c2_witness :
    normalizeRow janeRow ∈ processCsvData [janeRow] ∧
      (((normalizeRow janeRow).SquatLb = (normalizeRow janeRow).SquatKg.map specLbOfKg ∧
          ((normalizeRow janeRow).SquatLb = none ↔ (normalizeRow janeRow).SquatKg = none)) ∧
        ((normalizeRow janeRow).BenchLb = (normalizeRow janeRow).BenchKg.map specLbOfKg ∧
          ((normalizeRow janeRow).BenchLb = none ↔ (normalizeRow janeRow).BenchKg = none)) ∧
        ((normalizeRow janeRow).DeadliftLb = (normalizeRow janeRow).DeadliftKg.map specLbOfKg ∧
          ((normalizeRow janeRow).DeadliftLb = none ↔ (normalizeRow janeRow).DeadliftKg = none)) ∧
        ((normalizeRow janeRow).TotalLb = (normalizeRow janeRow).TotalKg.map specLbOfKg ∧
          ((normalizeRow janeRow).TotalLb = none ↔ (normalizeRow janeRow).TotalKg = none))) :=
  ⟨by decide, c2_lb_derived_from_kg [janeRow] (normalizeRow janeRow) (by decide)⟩

/-! ### C3 -/

lemma jsOrStr_or (a b : Option Str) (d : Str) :
    jsOrStr (jsOr a b) d = if truthy a then jsOrStr a d else jsOrStr b d := by
  by_cases ha : truthy a <;> simp [jsOr, ha]

lemma firstTruthyStr_cons (x : Option Str) (xs : List (Option Str)) (d : Str) :
    firstTruthyStr (x :: xs) d = if truthy x then jsOrStr x d else firstTruthyStr xs d := by
  cases x with
  | none => simp [firstTruthyStr, truthy]
  | some s => by_cases hs : s.isEmpty <;> simp [firstTruthyStr, truthy, hs, jsOrStr]

lemma firstTruthyStr_or_cons (a x : Option Str) (xs : List (Option Str)) :
    firstTruthyStr (jsOr a x :: xs) [] = firstTruthyStr (a :: x :: xs) [] := by
  by_cases ha : truthy a <;> simp [jsOr, ha, firstTruthyStr_cons]

lemma str_resolve (a : Option Str) (xs : List (Option Str)) :
    jsOrStr (xs.foldl jsOr a) [] = firstTruthyStr (a :: xs) [] := by
  induction xs generalizing a with
  | nil =>
    cases a with
    | none => simp [jsOrStr, firstTruthyStr]
    | some s => simp [jsOrStr, firstTruthyStr]
  | cons x xs ih => rw [List.foldl_cons, ih, firstTruthyStr_or_cons]

lemma firstTruthyElse_cons_truthy (a : Option Str) (xs : List (Option Str))
    (ha : truthy a = true) : firstTruthyElse (a :: xs) = a := by
  cases xs <;> simp [firstTruthyElse, ha]

lemma fte_or_cons (a x : Option Str) (xs : List (Option Str)) :
    firstTruthyElse (jsOr a x :: xs) = firstTruthyElse (a :: x :: xs) := by
  by_cases ha : truthy a
  · have h1 : jsOr a x = a := by simp [jsOr, ha]
    rw [h1, firstTruthyElse_cons_truthy a xs ha, firstTruthyElse_cons_truthy a (x :: xs) ha]
  · have h1 : jsOr a x = x := by simp [jsOr, ha]
    rw [h1]
    simp [firstTruthyElse, ha]

lemma fte_resolve (a : Option Str) (xs : List (Option Str)) :
    xs.foldl jsOr a = firstTruthyElse (a :: xs) := by
  induction xs generalizing a with
  | nil => simp [firstTruthyElse]
  | cons x xs ih => rw [List.foldl_cons, ih, fte_or_cons]

/-- C3 counterexample: with the first Name alias present but holding the
empty string and a later alias holding "bob", the produced record's name
is "bob" — the present-but-empty earlier alias is skipped, not taken as
the claim states. -/
theorem c3_counterexample :
    rowEmptyName.Name = some [] ∧
      (processCsvData [rowEmptyName]).map (fun r => r.Name) = [bobStr] ∧ bobStr ≠ [] :=
  ⟨rfl, by decide, by decide⟩

/-- C3 amended: for every canonical field the normalizer consults its
ordered alias list and takes the first alias whose value is truthy
(present and non-empty — a present but empty-string value is skipped
like an absent one); when no alias is truthy, string fields default to
'' and coerced fields receive the last alias's value unchanged (null for
absent); normalization is total, and an all-absent row yields the
defaults. -/
theorem c3_amended (r : RawRow) :
    (normalizeRow r).Name = firstTruthyStr [r.Name, r.name, r.lifter] [] ∧
      (normalizeRow r).Equipment = firstTruthyStr [r.Equipment, r.equipment, r.Gear] [] ∧
      (normalizeRow r).Federation = firstTruthyStr [r.Federation, r.federation] [] ∧
      (normalizeRow r).MeetDate =
        jsOrNull (parseDate (firstTruthyElse [r.MeetDate, r.meet_date, r.date, r.meetdate])) ∧
      (normalizeRow r).Age = toNumber (firstTruthyElse [r.Age, r.age]) ∧
      (normalizeRow r).BodyweightKg =
        toNumber (firstTruthyElse [r.BodyweightKg, r.bodyweight, r.bodywt, r.weight]) ∧
      (normalizeRow r).SquatKg =
        toNumber (firstTruthyElse [r.SquatKg, r.squat, r.best3sqkg, r.best3sq]) ∧
      (normalizeRow r).BenchKg =
        toNumber (firstTruthyElse [r.BenchKg, r.bench, r.best3bnkg, r.best3bn]) ∧
      (normalizeRow r).DeadliftKg =
        toNumber (firstTruthyElse [r.DeadliftKg, r.deadlift, r.best3dlkg, r.best3dl]) ∧
      (normalizeRow r).TotalKg = toNumber (firstTruthyElse [r.TotalKg, r.total, r.totalkg]) ∧
      (normalizeRow ({} : RawRow)).Name = [] ∧
      (normalizeRow ({} : RawRow)).MeetDate = none ∧
      (normalizeRow ({} : RawRow)).Equipment = [] ∧
      (normalizeRow ({} : RawRow)).Age = none ∧
      (normalizeRow ({} : RawRow)).SquatKg = none := by
  refine ⟨str_resolve r.Name [r.name, r.lifter],
    str_resolve r.Equipment [r.equipment, r.Gear],
    str_resolve r.Federation [r.federation],
    congrArg (fun x => jsOrNull (parseDate x)) (fte_resolve r.MeetDate [r.meet_date, r.date, r.meetdate]),
    congrArg toNumber (fte_resolve r.Age [r.age]),
    congrArg toNumber (fte_resolve r.BodyweightKg [r.bodyweight, r.bodywt, r.weight]),
    congrArg toNumber (fte_resolve r.SquatKg [r.squat, r.best3sqkg, r.best3sq]),
    congrArg toNumber (fte_resolve r.BenchKg [r.bench, r.best3bnkg, r.best3bn]),
    congrArg toNumber (fte_resolve r.DeadliftKg [r.deadlift, r.best3dlkg, r.best3dl]),
    congrArg toNumber (fte_resolve r.TotalKg [r.total, r.totalkg]),
    rfl, rfl, rfl, rfl, rfl⟩

/-! ### C9 -/

/-- C9 counterexample: with a selected name matching no record and one
active lift, the traces list has one (empty-data) series, not zero
series as the claim states. -/
theorem c9_counterexample :
    filteredRecs (processCsvData [janeRow]) missingName EquipFilter.All = [] ∧
      (qtraces (filteredRecs (processCsvData [janeRow]) missingName EquipFilter.All)
          squatOnly UnitSel.kg).length = 1 :=
  ⟨by decide, by decide⟩

/-- C9 amended: an empty activeLifts yields an empty series list; a name
with no matching records yields one series per active lift, each with
empty x and y arrays — never an error. -/
theorem c9_amended (rows : List LifterRecord) (sel : Str) (eq : EquipFilter)
    (u : UnitSel) (ls : LiftsState) :
    (activeLifts ls = [] → qtraces (filteredRecs rows sel eq) ls u = []) ∧
      (filteredRecs rows sel eq = [] →
        (qtraces (filteredRecs rows sel eq) ls u).length = (activeLifts ls).length ∧
          ∀ t ∈ qtraces (filteredRecs rows sel eq) ls u, t.x = [] ∧ t.y = []) := by
  constructor
  · intro h
    simp [qtraces, h]
  · intro h
    constructor
    · simp [qtraces]
    · intro t ht
      simp only [qtraces, List.mem_map] at ht
      obtain ⟨l, -, rfl⟩ := ht
      simp [h]

/-- Witness for the amended C9 at concrete inputs. -/
theorem c9_witness :
    qtraces (filteredRecs (processCsvData [janeRow]) missingName EquipFilter.All)
        noLifts UnitSel.kg = [] ∧
      (qtraces (filteredRecs (processCsvData [janeRow]) missingName EquipFilter.All)
          squatOnly UnitSel.kg).length = (activeLifts squatOnly).length :=
  ⟨(c9_amended (processCsvData [janeRow]) missingName EquipFilter.All UnitSel.kg noLifts).1
      (by decide),
    ((c9_amended (processCsvData [janeRow]) missingName EquipFilter.All UnitSel.kg squatOnly).2
        (by decide)).1⟩

/-! ### Sorting lemmas shared by the query-layer claims -/

lemma mem_insertRec {x y : LifterRecord} {l : List LifterRecord} :
    y ∈ insertRec x l ↔ y = x ∨ y ∈ l := by
  induction l with
  | nil => simp [insertRec]
  | cons z zs ih =>
    simp only [insertRec]
    split
    · rw [List.mem_cons, ih, List.mem_cons]
      tauto
    · simp [List.mem_cons]

lemma mem_sortByDate_aux (l acc : List LifterRecord) (y : LifterRecord) :
    (y ∈ l.foldl (fun a r => insertRec r a) acc) ↔ y ∈ acc ∨ y ∈ l := by
  induction l generalizing acc with
  | nil => simp
  | cons z zs ih =>
    rw [List.foldl_cons, ih, mem_insertRec]
    simp only [List.mem_cons]
    tauto

lemma mem_sortByDate (l : List LifterRecord) (y : LifterRecord) :
    y ∈ sortByDate l ↔ y ∈ l := by
  rw [sortByDate, mem_sortByDate_aux]
  simp

lemma pairwise_insertRec {x : LifterRecord} {l : List LifterRecord}
    (h : l.Pairwise fun a b => dateKey a ≤ dateKey b) :
    (insertRec x l).Pairwise fun a b => dateKey a ≤ dateKey b := by
  induction l with
  | nil => simp [insertRec]
  | cons y ys ih =>
    rw [List.pairwise_cons] at h
    obtain ⟨hy, hys⟩ := h
    simp only [insertRec]
    split
    · rename_i hle
      rw [List.pairwise_cons]
      refine ⟨fun b hb => ?_, ih hys⟩
      rcases mem_insertRec.mp hb with rfl | hb
      · exact hle
      · exact hy b hb
    · rename_i hgt
      rw [List.pairwise_cons]
      refine ⟨fun b hb => ?_, List.pairwise_cons.mpr ⟨hy, hys⟩⟩
      rcases List.mem_cons.mp hb with rfl | hb
      · omega
      · have := hy b hb
        omega

lemma pairwise_sortByDate_aux (l : List LifterRecord) (acc : List LifterRecord)
    (hacc : acc.Pairwise fun a b => dateKey a ≤ dateKey b) :
    (l.foldl (fun a r => insertRec r a) acc).Pairwise fun a b => dateKey a ≤ dateKey b := by
  induction l generalizing acc with
  | nil => simpa using hacc
  | cons z zs ih => exact ih _ (pairwise_insertRec hacc)

lemma pairwise_sortByDate (l : List LifterRecord) :
    (sortByDate l).Pairwise fun a b => dateKey a ≤ dateKey b :=
  pairwise_sortByDate_aux l [] List.Pairwise.nil

lemma pairwise_getElem? {R : LifterRecord → LifterRecord → Prop} {l : List LifterRecord}
    (h : l.Pairwise R) {i j : Nat} {a b : LifterRecord} (hij : i < j)
    (ha : l[i]? = some a) (hb : l[j]? = some b) : R a b := by
  obtain ⟨hi', ha'⟩ := List.getElem?_eq_some_iff.mp ha
  obtain ⟨hj', hb'⟩ := List.getElem?_eq_some_iff.mp hb
  have := List.pairwise_iff_getElem.mp h i j hi' hj' hij
  rwa [ha', hb'] at this

/-! ### C7 -/

/-- C7: with a selected name, the Raw filter keeps exactly the
name-matching records whose equipment contains "raw" case-insensitively,
Equipped keeps exactly the complement among the name-matching records,
and All keeps every name-matching record. -/
theorem c7_equipment_filter (rows : List LifterRecord) (sel : Str)
    (hsel : sel ≠ []) (r : LifterRecord) :
    (r ∈ filteredRecs rows sel EquipFilter.Raw ↔
      r ∈ rows ∧ r.Name = sel ∧ containsRaw r.Equipment = true) ∧
      (r ∈ filteredRecs rows sel EquipFilter.Equipped ↔
        r ∈ rows ∧ r.Name = sel ∧ containsRaw r.Equipment = false) ∧
      (r ∈ filteredRecs rows sel EquipFilter.All ↔ r ∈ rows ∧ r.Name = sel) := by
  have hne : ¬ sel.isEmpty = true := by simpa [List.isEmpty_iff] using hsel
  refine ⟨?_, ?_, ?_⟩ <;>
      simp [filteredRecs, hne, mem_sortByDate, nameEquipFiltered, List.mem_filter,
        decide_eq_true_eq, and_assoc] <;>
    tauto

/-- A row whose equipment mentions Raw. -/
def bobRawRow : RawRow := { Name := some bobStr, Equipment := some ['R', 'a', 'w'] }

/-- A row whose equipment does not mention raw. -/
def bobEqRow : RawRow := { Name := some bobStr, Equipment := some ['M', 'u', 'l', 't', 'i'] }

/-- Concrete records for the query-layer witnesses. -/
def c7rows : List LifterRecord := processCsvData [bobRawRow, bobEqRow]

/-- Witness for C7 at concrete records. -/
theorem c7_witness :
    bobStr ≠ [] ∧
      ((normalizeRow bobRawRow ∈ filteredRecs c7rows bobStr EquipFilter.Raw ↔
        normalizeRow bobRawRow ∈ c7rows ∧ (normalizeRow bobRawRow).Name = bobStr ∧
          containsRaw (normalizeRow bobRawRow).Equipment = true) ∧
        (normalizeRow bobRawRow ∈ filteredRecs c7rows bobStr EquipFilter.Equipped ↔
          normalizeRow bobRawRow ∈ c7rows ∧ (normalizeRow bobRawRow).Name = bobStr ∧
            containsRaw (normalizeRow bobRawRow).Equipment = false) ∧
        (normalizeRow bobRawRow ∈ filteredRecs c7rows bobStr EquipFilter.All ↔
          normalizeRow bobRawRow ∈ c7rows ∧ (normalizeRow bobRawRow).Name = bobStr)) :=
  ⟨by decide, c7_equipment_filter c7rows bobStr (by decide) (normalizeRow bobRawRow)⟩

/-! ### C8 -/

/-- C8: the query layer sorts the name/equipment-filtered records
ascending by meet date without excluding null dates — membership in the
sorted output coincides with membership in the filtered set, the output
is pairwise ordered by the date key, and any two records with non-null
dates appear with the earlier date first. -/
theorem c8_date_sort (rows : List LifterRecord) (sel : Str) (eq : EquipFilter)
    (hsel : sel ≠ []) (r : LifterRecord) :
    (r ∈ filteredRecs rows sel eq ↔ r ∈ nameEquipFiltered rows sel eq) ∧
      ((filteredRecs rows sel eq).Pairwise fun a b => dateKey a ≤ dateKey b) ∧
      ((filteredRecs rows sel eq).Pairwise fun a b =>
        ∀ da db, a.MeetDate = some da → b.MeetDate = some db → jsDateMs da ≤ jsDateMs db) := by
  have hne : ¬ sel.isEmpty = true := by simpa [List.isEmpty_iff] using hsel
  have hsort : filteredRecs rows sel eq = sortByDate (nameEquipFiltered rows sel eq) := by
    simp [filteredRecs, hne]
  refine ⟨by rw [hsort]; exact mem_sortByDate _ _,
    by rw [hsort]; exact pairwise_sortByDate _, ?_⟩
  rw [hsort]
  refine (pairwise_sortByDate _).imp ?_
  intro a b hab da db hda hdb
  simpa [dateKey, dateKeyOpt, hda, hdb] using hab

/-- A meet date after the epoch. -/
def d1980 : Str := ['1', '9', '8', '0', '-', '0', '1', '-', '0', '2']

/-- A meet date before the epoch. -/
def d1969 : Str := ['1', '9', '6', '9', '-', '0', '6', '-', '0', '1']

/-- A row dated after the epoch. -/
def bob1980Row : RawRow := { Name := some bobStr, MeetDate := some d1980 }

/-- A row with no date. -/
def bobNullRow : RawRow := { Name := some bobStr }

/-- A row dated before the epoch. -/
def bob1969Row : RawRow := { Name := some bobStr, MeetDate := some d1969 }

/-- Rows exercising the null-date sort placement. -/
def c10raws : List RawRow := [bob1980Row, bobNullRow, bob1969Row]

/-- Witness for C8 at concrete records. -/
theorem c8_witness :
    bobStr ≠ [] ∧
      ((normalizeRow bobNullRow ∈
          filteredRecs (processCsvData c10raws) bobStr EquipFilter.All ↔
        normalizeRow bobNullRow ∈
          nameEquipFiltered (processCsvData c10raws) bobStr EquipFilter.All) ∧
        ((filteredRecs (processCsvData c10raws) bobStr EquipFilter.All).Pairwise
          fun a b => dateKey a ≤ dateKey b) ∧
        ((filteredRecs (processCsvData c10raws) bobStr EquipFilter.All).Pairwise
          fun a b => ∀ da db, a.MeetDate = some da → b.MeetDate = some db →
            jsDateMs da ≤ jsDateMs db)) :=
  ⟨by decide, c8_date_sort (processCsvData c10raws) bobStr EquipFilter.All (by decide)
    (normalizeRow bobNullRow)⟩

/-! ### C10 -/

/-- C10: in the query layer's date sort a null meet date is compared as
the Unix epoch — its key is 0, and among the sorted filtered records a
null-date record sits before any record dated after 1970-01-01 and after
any record dated before 1970-01-01 (null is not uniformly earliest). -/
theorem c10_null_date_epoch (raws : List RawRow) (sel : Str) (eq : EquipFilter)
    (i j : Nat) (d : Str)
    (hi : ((filteredRecs (processCsvData raws) sel eq)[i]?).map (fun r => r.MeetDate) =
      some none)
    (hj : ((filteredRecs (processCsvData raws) sel eq)[j]?).map (fun r => r.MeetDate) =
      some (some d)) :
    dateKeyOpt none = 0 ∧ (0 < jsDateMs d → i < j) ∧ (jsDateMs d < 0 → j < i) := by
  obtain ⟨a, ha, hma⟩ := Option.map_eq_some'.mp hi
  obtain ⟨b, hb, hmb⟩ := Option.map_eq_some'.mp hj
  have hij : i ≠ j := by
    rintro rfl
    rw [ha] at hb
    cases hb
    rw [hma] at hmb
    exact Option.noConfusion hmb
  have hpw : (filteredRecs (processCsvData raws) sel eq).Pairwise
      fun x y => dateKey x ≤ dateKey y := by
    by_cases hne : sel.isEmpty = true
    · exfalso
      have hempty : filteredRecs (processCsvData raws) sel eq = [] := by
        simp [filteredRecs, hne]
      rw [hempty] at ha
      simp at ha
    · have hsort : filteredRecs (processCsvData raws) sel eq =
          sortByDate (nameEquipFiltered (processCsvData raws) sel eq) := by
        simp [filteredRecs, hne]
      rw [hsort]
      exact pairwise_sortByDate _
  have hka : dateKey a = 0 := by simp [dateKey, dateKeyOpt, hma]
  have hkb : dateKey b = jsDateMs d := by simp [dateKey, dateKeyOpt, hmb]
  refine ⟨rfl, fun hpos => ?_, fun hneg => ?_⟩
  · rcases Nat.lt_or_ge i j with h | h
    · exact h
    · exfalso
      have hji : j < i := by omega
      have hle := pairwise_getElem? hpw hji hb ha
      rw [hka, hkb] at hle
      omega
  · rcases Nat.lt_or_ge j i with h | h
    · exact h
    · exfalso
      have hij' : i < j := by omega
      have hle := pairwise_getElem? hpw hij' ha hb
      rw [hka, hkb] at hle
      omega

/-- Witness for C10 at concrete records: the sorted order is
[1969-06-01, null, 1980-01-02]. -/
theorem c10_witness :
    ((filteredRecs (processCsvData c10raws) bobStr EquipFilter.All)[1]?).map
        (fun r => r.MeetDate) = some none ∧
      ((filteredRecs (processCsvData c10raws) bobStr EquipFilter.All)[2]?).map
        (fun r => r.MeetDate) = some (some d1980) ∧
      (dateKeyOpt none = 0 ∧ (0 < jsDateMs d1980 → 1 < 2) ∧ (jsDateMs d1980 < 0 → 2 < 1)) :=
  ⟨by decide, by decide,
    c10_null_date_epoch c10raws bobStr EquipFilter.All 1 2 d1980 (by decide) (by decide)⟩

/-! ### C4 -/

/-- "O'Brien  Jr." as characters (39 is the apostrophe). -/
def obrienPunct : Str := ['O', Char.ofNat 39, 'B', 'r', 'i', 'e', 'n', ' ', ' ', 'J', 'r', '.']

/-- "obrien jr" as characters. -/
def obrienPlain : Str := ['o', 'b', 'r', 'i', 'e', 'n', ' ', 'j', 'r']

/-- "a !" as characters: stripping the bang exposes a trailing space
after the trim has already run. -/
def aBang : Str := ['a', ' ', '!']

lemma collapseWs_chars {l : Str} {c : Char} (hc : c ∈ collapseWs l) :
    c = ' ' ∨ (c ∈ l ∧ isJsWs c = false) := by
  induction l with
  | nil => simp [collapseWs] at hc
  | cons z zs ih =>
    cases zs with
    | nil =>
      by_cases hz : isJsWs z
      · simp [collapseWs, hz] at hc
        exact Or.inl hc
      · simp [collapseWs, hz] at hc
        subst hc
        exact Or.inr ⟨List.mem_cons_self _ _, by simpa using hz⟩
    | cons d rest =>
      by_cases hz : isJsWs z
      · by_cases hd : isJsWs d
        · rw [show collapseWs (z :: d :: rest) = collapseWs (d :: rest) from by
            simp [collapseWs, hz, hd]] at hc
          rcases ih hc with h | ⟨h1, h2⟩
          · exact Or.inl h
          · exact Or.inr ⟨List.mem_cons_of_mem _ h1, h2⟩
        · rw [show collapseWs (z :: d :: rest) = ' ' :: collapseWs (d :: rest) from by
            simp [collapseWs, hz, hd]] at hc
          rcases List.mem_cons.mp hc with rfl | hc
          · exact Or.inl rfl
          · rcases ih hc with h | ⟨h1, h2⟩
            · exact Or.inl h
            · exact Or.inr ⟨List.mem_cons_of_mem _ h1, h2⟩
      · rw [show collapseWs (z :: d :: rest) = z :: collapseWs (d :: rest) from by
          simp [collapseWs, hz]] at hc
        rcases List.mem_cons.mp hc with rfl | hc
        · exact Or.inr ⟨List.mem_cons_self _ _, by simpa using hz⟩
        · rcases ih hc with h | ⟨h1, h2⟩
          · exact Or.inl h
          · exact Or.inr ⟨List.mem_cons_of_mem _ h1, h2⟩

lemma collapseWs_cons_not_ws {d : Char} (hd : isJsWs d = false) (rest : Str) :
    ∃ t, collapseWs (d :: rest) = d :: t := by
  cases rest with
  | nil => exact ⟨[], by simp [collapseWs, hd]⟩
  | cons e res => exact ⟨collapseWs (e :: res), by simp [collapseWs, hd]⟩

lemma collapseWs_chain (l : Str) :
    (collapseWs l).Chain' fun a b => ¬(isJsWs a = true ∧ isJsWs b = true) := by
  induction l with
  | nil => simp [collapseWs]
  | cons z zs ih =>
    cases zs with
    | nil => by_cases hz : isJsWs z <;> simp [collapseWs, hz]
    | cons d rest =>
      by_cases hz : isJsWs z
      · by_cases hd : isJsWs d
        · rw [show collapseWs (z :: d :: rest) = collapseWs (d :: rest) from by
            simp [collapseWs, hz, hd]]
          exact ih
        · obtain ⟨t, ht⟩ := collapseWs_cons_not_ws (by simpa using hd) rest
          rw [show collapseWs (z :: d :: rest) = ' ' :: collapseWs (d :: rest) from by
            simp [collapseWs, hz, hd], ht]
          rw [ht] at ih
          exact List.Chain'.cons (by simp [hd]) ih
      · rw [show collapseWs (z :: d :: rest) = z :: collapseWs (d :: rest) from by
          simp [collapseWs, hz]]
        refine List.chain'_cons'.mpr ⟨fun y _ => by simp [hz], ih⟩

lemma collapseWs_eq_self (l : Str) :
    (∀ c ∈ l, isJsWs c = true → c = ' ') →
      (l.Chain' fun a b => ¬(isJsWs a = true ∧ isJsWs b = true)) → collapseWs l = l := by
  induction l with
  | nil => intro _ _; rfl
  | cons z zs ih =>
    intro hchars hchain
    cases zs with
    | nil =>
      by_cases hz : isJsWs z
      · have hz' : z = ' ' := hchars z (List.mem_cons_self _ _) hz
        simp [collapseWs, hz, hz']
      · simp [collapseWs, hz]
    | cons d rest =>
      have htail : (d :: rest).Chain' fun a b => ¬(isJsWs a = true ∧ isJsWs b = true) :=
        (List.chain'_cons.mp hchain).2
      have hcs : ∀ c ∈ d :: rest, isJsWs c = true → c = ' ' :=
        fun c hc => hchars c (List.mem_cons_of_mem _ hc)
      by_cases hz : isJsWs z
      · have hzd := (List.chain'_cons.mp hchain).1
        have hd : ¬ isJsWs d = true := fun hdt => hzd ⟨hz, hdt⟩
        have hz' : z = ' ' := hchars z (List.mem_cons_self _ _) hz
        rw [show collapseWs (z :: d :: rest) = ' ' :: collapseWs (d :: rest) from by
          simp [collapseWs, hz, hd], ih hcs htail, hz']
      · rw [show collapseWs (z :: d :: rest) = z :: collapseWs (d :: rest) from by
          simp [collapseWs, hz], ih hcs htail]

lemma toLower_eq_self_of_keep {c : Char} (h : isKeepName c = true) : c.toLower = c := by
  have hn : ¬(c.toNat ≥ 65 ∧ c.toNat ≤ 90) := by
    simp [isKeepName, isLowerAlnum, isJsWs] at h
    omega
  simp [Char.toLower, hn]

lemma toLowerStr_eq_self {l : Str} (h : ∀ c ∈ l, isKeepName c = true) : toLowerStr l = l := by
  induction l with
  | nil => rfl
  | cons c cs ih =>
    rw [toLowerStr, List.map_cons, toLower_eq_self_of_keep (h c (List.mem_cons_self c cs))]
    congr 1
    exact ih fun d hd => h d (List.mem_cons_of_mem _ hd)

lemma stripName_eq_self {l : Str} (h : ∀ c ∈ l, isKeepName c = true) : stripName l = l :=
  List.filter_eq_self.mpr h

lemma mem_trimWs {c : Char} {l : Str} (h : c ∈ trimWs l) : c ∈ l := by
  rw [trimWs, List.mem_reverse] at h
  have h1 := (List.dropWhile_suffix isJsWs).subset h
  rw [List.mem_reverse] at h1
  exact (List.dropWhile_suffix isJsWs).subset h1

lemma chain'_trimWs {l : Str} {R : Char → Char → Prop} (h : l.Chain' R) :
    (trimWs l).Chain' R := by
  have h1 : (l.dropWhile isJsWs).Chain' R := h.suffix (List.dropWhile_suffix _)
  have h2 : ((l.dropWhile isJsWs).reverse).Chain' (flip R) := List.chain'_reverse.mpr h1
  have h3 : (((l.dropWhile isJsWs).reverse).dropWhile isJsWs).Chain' (flip R) :=
    h2.suffix (List.dropWhile_suffix _)
  exact List.chain'_reverse.mpr h3

lemma normalizeName_chars {s : Str} {c : Char} (hc : c ∈ normalizeName s) :
    isKeepName c = true ∧ (isJsWs c = true → c = ' ') := by
  by_cases hs : s.isEmpty
  · rw [normalizeName, if_pos hs] at hc
    simp at hc
  · rw [normalizeName, if_neg hs] at hc
    rcases collapseWs_chars hc with rfl | ⟨h1, h2⟩
    · exact ⟨by decide, fun _ => rfl⟩
    · exact ⟨(List.mem_filter.mp h1).2, fun hw => absurd hw (by simp [h2])⟩

lemma normalizeName_chain (s : Str) :
    (normalizeName s).Chain' fun a b => ¬(isJsWs a = true ∧ isJsWs b = true) := by
  by_cases hs : s.isEmpty
  · rw [normalizeName, if_pos hs]
    simp
  · rw [normalizeName, if_neg hs]
    exact collapseWs_chain _

lemma normalizeName_canon (t : Str) (hK1 : ∀ c ∈ t, isKeepName c = true)
    (hK2 : ∀ c ∈ t, isJsWs c = true → c = ' ')
    (hK3 : t.Chain' fun a b => ¬(isJsWs a = true ∧ isJsWs b = true)) :
    normalizeName t = trimWs t := by
  by_cases ht : t.isEmpty
  · rw [List.isEmpty_iff.mp ht]
    rfl
  · rw [normalizeName, if_neg ht]
    have hmem : ∀ c ∈ trimWs t, isKeepName c = true := fun c hc => hK1 c (mem_trimWs hc)
    rw [toLowerStr_eq_self hmem, stripName_eq_self hmem]
    exact collapseWs_eq_self (trimWs t) (fun c hc => hK2 c (mem_trimWs hc)) (chain'_trimWs hK3)

/-- C4 counterexample: normalizeName("a !") keeps a trailing space (the
trim runs before punctuation stripping), so a second application is not
a no-op. -/
theorem c4_counterexample :
    normalizeName aBang = ['a', ' '] ∧
      normalizeName (normalizeName aBang) = ['a'] ∧
      normalizeName (normalizeName aBang) ≠ normalizeName aBang :=
  ⟨by decide, by decide, by decide⟩

/-- C4 amended: re-running normalizeName on its own output only trims
the leading/trailing whitespace that stripping punctuation can expose —
normalizeName(normalizeName(s)) = trim(normalizeName(s)) for every s (so
it is a no-op exactly when the first output is already trimmed) — and
normalizeName is case/punctuation-insensitive on the spec's example:
normalizeName("O'Brien  Jr.") = normalizeName("obrien jr"). -/
theorem c4_amended :
    (∀ s : Str, normalizeName (normalizeName s) = trimWs (normalizeName s)) ∧
      normalizeName obrienPunct = normalizeName obrienPlain := by
  refine ⟨fun s => ?_, by decide⟩
  exact normalizeName_canon (normalizeName s)
    (fun c hc => (normalizeName_chars hc).1)
    (fun c hc => (normalizeName_chars hc).2)
    (normalizeName_chain s)

end Powerlifting
